import Mathlib

/-!
Shallow embedding of the MPSC channel in `src/lib.rs` (`channel`, `Sender::send`,
`Sender::clone`, `Sender::drop`, `Receiver::recv`) together with proofs of the
specification's claims about it.

The Rust shared state is `Inner<T> { queue: VecDeque<T>, senders: usize }`
behind a `Mutex`, plus the consumer-local prefetch `buffer: VecDeque<T>` stored
in `Receiver`.  Since there is exactly one consumer, the embedding collects the
jointly-owned `Inner` fields and the consumer's buffer in one record and models
each API call as a state transformer.  `VecDeque` front/back operations become
`List` head/append; the `usize` counter becomes `Nat` (the development proves
that the one subtraction the code performs never underflows, so truncated `Nat`
subtraction agrees with machine arithmetic on all reachable states).  A call of
`recv` that would block on the condition variable is represented by the
explicit outcome `blocked`.
-/

namespace Channel

/-- Joint state of one channel: the shared `Inner` fields (`queue`, `senders`)
together with the single `Receiver`'s private prefetch `buffer`. -/
structure ChannelState (T : Type) where
  queue : List T
  senders : Nat
  buffer : List T
  deriving Repr, DecidableEq

/-- Embedding of `channel::<T>()`: a fresh shared state with one live sender,
an empty queue and an empty prefetch buffer.  The returned `Sender` and
`Receiver` both hold `Arc` clones of this one freshly allocated state, which
the embedding represents by the single record below; the function is total, so
construction always succeeds. -/
def channel (T : Type) : ChannelState T :=
  { queue := [], senders := 1, buffer := [] }

/-- Embedding of `Sender::send`: `inner.queue.push_back(t)` appends the value
at the back of the shared queue (the subsequent `notify_one` has no effect on
the state).  The function is total: `send` has no failure path. -/
def send {T : Type} (t : T) (s : ChannelState T) : ChannelState T :=
  { s with queue := s.queue ++ [t] }

/-- Embedding of `Sender::clone`: `inner.senders += 1`. -/
def cloneSender {T : Type} (s : ChannelState T) : ChannelState T :=
  { s with senders := s.senders + 1 }

/-- Embedding of `Sender::drop`: `inner.senders -= 1` (the `notify_one` has no
effect on the state).  `Nat` subtraction truncates at zero where `usize`
subtraction would underflow; the reachability theorems below show the counter
is at least 1 whenever a destructor runs, so the two agree. -/
def dropSender {T : Type} (s : ChannelState T) : ChannelState T :=
  { s with senders := s.senders - 1 }

/-- Outcome of one `Receiver::recv` call: `received t s` models `return Some(t)`
leaving state `s`, `closed s` models `return None`, and `blocked s` models the
call parking on `Condvar::wait` (which in this sequential embedding cannot be
woken, as no concurrent producer exists to change the state). -/
inductive RecvResult (T : Type) where
  | received (t : T) (s : ChannelState T)
  | closed (s : ChannelState T)
  | blocked (s : ChannelState T)
  deriving Repr, DecidableEq

/-- Embedding of `Receiver::recv`: first `self.buffer.pop_front()` (the fast
path); otherwise, under the lock, `inner.queue.pop_front()` — on `Some(t)` the
code runs `mem::swap(&mut self.buffer, &mut inner.queue)`, so the buffer takes
the remaining queue and the queue takes the (necessarily empty) buffer; on
`None` it returns `None` when `inner.senders == 0` and otherwise waits on the
condition variable. -/
def recv {T : Type} (s : ChannelState T) : RecvResult T :=
  match s.buffer with
  | t :: rest => .received t { s with buffer := rest }
  | [] =>
    match s.queue with
    | t :: qrest =>
      .received t { queue := s.buffer, senders := s.senders, buffer := qrest }
    | [] => if s.senders = 0 then .closed s else .blocked s

/-- State in which a `recv` call leaves the channel (for `blocked`, the state
while the consumer is parked, which the wait itself does not change). -/
def RecvResult.state {T : Type} : RecvResult T → ChannelState T
  | .received _ s => s
  | .closed s => s
  | .blocked s => s

/-- Modelled from the spec: the slow path of `recv` as §4.3 words it — when the
shared queue is non-empty, swap its entire contents into `prefetchBuffer`, then
pop and return the first element of `prefetchBuffer`.  (The code instead pops
the queue first and swaps afterwards; claim C4 compares the two.)  Fast path,
end-of-stream and blocking are as in the code. -/
def recvSpecModel {T : Type} (s : ChannelState T) : RecvResult T :=
  match s.buffer with
  | t :: rest => .received t { s with buffer := rest }
  | [] =>
    match s.queue with
    | _ :: _ =>
      match s.queue with
      | t :: rest =>
        .received t { queue := s.buffer, senders := s.senders, buffer := rest }
      | [] => .blocked s
    | [] => if s.senders = 0 then .closed s else .blocked s

/-- API calls a program can make against one channel.  `cloneOp`, `sendOp` and
`dropOp` go through some live `Sender` handle; `recvOp` is a `Receiver::recv`
call (leaving the state as `RecvResult.state` reports it). -/
inductive Op (T : Type) where
  | cloneOp
  | sendOp (t : T)
  | dropOp
  | recvOp
  deriving Repr, DecidableEq

/-- Effect of one API call on the channel state. -/
def applyOp {T : Type} : Op T → ChannelState T → ChannelState T
  | .cloneOp, s => cloneSender s
  | .sendOp t, s => send t s
  | .dropOp, s => dropSender s
  | .recvOp, s => (recv s).state

/-- Run a sequence of API calls from a given state. -/
def runOps {T : Type} (ops : List (Op T)) (s : ChannelState T) : ChannelState T :=
  ops.foldl (fun s op => applyOp op s) s

/-- Number of producer handles alive after a call sequence, starting from
`live` handles: the factory hands out one, each clone adds one, each destructor
removes one. -/
def liveAfter {T : Type} : Nat → List (Op T) → Nat
  | live, [] => live
  | live, .cloneOp :: rest => liveAfter (live + 1) rest
  | live, .sendOp _ :: rest => liveAfter live rest
  | live, .dropOp :: rest => liveAfter (live - 1) rest
  | live, .recvOp :: rest => liveAfter live rest

/-- A call sequence is realizable from `live` producer handles when every
`clone`, `send` and destructor in it goes through a handle that is still alive
at that point (Rust enforces this statically: each call borrows a live
`Sender`, and each handle is dropped exactly once). -/
def validFrom {T : Type} : Nat → List (Op T) → Bool
  | _, [] => true
  | live, .cloneOp :: rest => decide (1 ≤ live) && validFrom (live + 1) rest
  | live, .sendOp _ :: rest => decide (1 ≤ live) && validFrom live rest
  | live, .dropOp :: rest => decide (1 ≤ live) && validFrom (live - 1) rest
  | live, .recvOp :: rest => validFrom live rest

/-- Number of `Sender::clone` calls in a call sequence. -/
def countClones {T : Type} (ops : List (Op T)) : Nat :=
  ops.countP fun op => match op with | .cloneOp => true | _ => false

/-- Number of `Sender::drop` destructor runs in a call sequence. -/
def countDrops {T : Type} (ops : List (Op T)) : Nat :=
  ops.countP fun op => match op with | .dropOp => true | _ => false

/-- Send a whole sequence of values, in order, through one sender handle. -/
def sendAll {T : Type} (vs : List T) (s : ChannelState T) : ChannelState T :=
  vs.foldl (fun s v => send v s) s

/-- Call `recv` `n` times in a row on the same `Receiver`, recording each
returned `Option` value; `none` overall when some call blocks instead of
returning. -/
def recvN {T : Type} : Nat → ChannelState T → Option (List (Option T) × ChannelState T)
  | 0, s => some ([], s)
  | n + 1, s =>
    match recv s with
    | .received t s' => (recvN n s').map fun p => (some t :: p.1, p.2)
    | .closed s' => (recvN n s').map fun p => (none :: p.1, p.2)
    | .blocked _ => none

/-! ### Helper lemmas -/

/-- A `recv` call never changes the producer count. -/
lemma recv_state_senders {T : Type} (s : ChannelState T) :
    ((recv s).state).senders = s.senders := by
  obtain ⟨q, n, b⟩ := s
  cases b with
  | nil =>
    cases q with
    | nil =>
      by_cases h : n = 0 <;> simp [recv, RecvResult.state, h]
    | cons t qrest => simp [recv, RecvResult.state]
  | cons t rest => simp [recv, RecvResult.state]

/-- Value conservation: when the consumer-visible content (prefetch buffer
followed by shared queue) is `t :: rest`, `recv` returns `t` and leaves content
exactly `rest`, with the producer count untouched. -/
lemma recv_received_content {T : Type} (s : ChannelState T) (t : T) (rest : List T)
    (h : s.buffer ++ s.queue = t :: rest) :
    ∃ s', recv s = .received t s' ∧ s'.buffer ++ s'.queue = rest ∧
      s'.senders = s.senders := by
  obtain ⟨q, n, b⟩ := s
  cases b with
  | nil =>
    simp only [List.nil_append] at h
    subst h
    exact ⟨⟨[], n, rest⟩, rfl, by simp, rfl⟩
  | cons u brest =>
    simp only [List.cons_append, List.cons.injEq] at h
    obtain ⟨rfl, hrest⟩ := h
    exact ⟨⟨q, n, brest⟩, rfl, hrest, rfl⟩

/-- Draining lemma: as long as at least `n` values are present, `n` successive
`recv` calls return the first `n` values of the content in order, leave the
rest, and never change the producer count. -/
lemma recvN_drain {T : Type} :
    ∀ (n : Nat) (s : ChannelState T), n ≤ (s.buffer ++ s.queue).length →
    ∃ s', recvN n s = some (((s.buffer ++ s.queue).take n).map some, s') ∧
      s'.buffer ++ s'.queue = (s.buffer ++ s.queue).drop n ∧
      s'.senders = s.senders := by
  intro n
  induction n with
  | zero => intro s _; exact ⟨s, rfl, by simp, rfl⟩
  | succ n ih =>
    intro s hlen
    match hc : s.buffer ++ s.queue with
    | [] => rw [hc] at hlen; simp at hlen
    | t :: rest =>
      obtain ⟨s₁, hr, hc₁, hsend⟩ := recv_received_content s t rest hc
      rw [hc] at hlen
      have hn : n ≤ (s₁.buffer ++ s₁.queue).length := by
        rw [hc₁]; simpa using Nat.le_of_succ_le_succ hlen
      obtain ⟨s', hN, hc', hs'⟩ := ih s₁ hn
      refine ⟨s', ?_, ?_, ?_⟩
      · simp [recvN, hr, hN, hc₁]
      · rw [hc', hc₁]; rfl
      · rw [hs', hsend]

/-- Sending a list of values appends it, in order, at the back of the queue and
changes nothing else. -/
lemma sendAll_queue {T : Type} :
    ∀ (vs : List T) (s : ChannelState T),
    sendAll vs s =
      { queue := s.queue ++ vs, senders := s.senders, buffer := s.buffer } := by
  intro vs
  induction vs with
  | nil => intro s; simp [sendAll]
  | cons v vs ih =>
    intro s
    show sendAll vs (send v s) = _
    rw [ih (send v s)]
    simp [send]

/-- The producer count after a realizable call sequence is exactly the number
of handles still alive. -/
lemma runOps_senders {T : Type} :
    ∀ (ops : List (Op T)) (live : Nat) (s : ChannelState T),
    validFrom live ops = true → s.senders = live →
    (runOps ops s).senders = liveAfter live ops := by
  intro ops
  induction ops with
  | nil => intro live s _ hs; exact hs
  | cons op rest ih =>
    intro live s hv hs
    cases op with
    | cloneOp =>
      simp only [validFrom, Bool.and_eq_true] at hv
      exact ih (live + 1) (cloneSender s) hv.2 (by simp [cloneSender, hs])
    | sendOp t =>
      simp only [validFrom, Bool.and_eq_true] at hv
      exact ih live (send t s) hv.2 (by simp [send, hs])
    | dropOp =>
      simp only [validFrom, Bool.and_eq_true] at hv
      exact ih (live - 1) (dropSender s) hv.2 (by simp [dropSender, hs])
    | recvOp =>
      simp only [validFrom] at hv
      exact ih live ((recv s).state) hv (by rw [recv_state_senders, hs])

/-- Clone count of a call sequence, one call at a time. -/
lemma countClones_cons {T : Type} (op : Op T) (rest : List (Op T)) :
    countClones (op :: rest) =
      countClones rest + (match op with | Op.cloneOp => 1 | _ => 0) := by
  cases op <;> simp [countClones, List.countP_cons]

/-- Destructor count of a call sequence, one call at a time. -/
lemma countDrops_cons {T : Type} (op : Op T) (rest : List (Op T)) :
    countDrops (op :: rest) =
      countDrops rest + (match op with | Op.dropOp => 1 | _ => 0) := by
  cases op <;> simp [countDrops, List.countP_cons]

/-- Under realizability, the live-handle count is the constructed count minus
the destructed count, and destructions never outnumber constructions. -/
lemma liveAfter_counts {T : Type} :
    ∀ (ops : List (Op T)) (live : Nat), validFrom live ops = true →
    countDrops ops ≤ live + countClones ops ∧
    liveAfter live ops = live + countClones ops - countDrops ops := by
  intro ops
  induction ops with
  | nil => intro live _; simp [countDrops, countClones, liveAfter]
  | cons op rest ih =>
    intro live hv
    cases op with
    | cloneOp =>
      simp only [validFrom, Bool.and_eq_true, decide_eq_true_eq] at hv
      obtain ⟨h1, h2⟩ := ih (live + 1) hv.2
      have hc : countClones (Op.cloneOp :: rest) = countClones rest + 1 :=
        countClones_cons _ _
      have hd : countDrops (Op.cloneOp :: rest) = countDrops rest :=
        countDrops_cons _ _
      have hl : liveAfter live (Op.cloneOp :: rest) = liveAfter (live + 1) rest := rfl
      rw [hc, hd, hl, h2]
      omega
    | sendOp t =>
      simp only [validFrom, Bool.and_eq_true, decide_eq_true_eq] at hv
      obtain ⟨h1, h2⟩ := ih live hv.2
      have hc : countClones (Op.sendOp t :: rest) = countClones rest :=
        countClones_cons _ _
      have hd : countDrops (Op.sendOp t :: rest) = countDrops rest :=
        countDrops_cons _ _
      have hl : liveAfter live (Op.sendOp t :: rest) = liveAfter live rest := rfl
      rw [hc, hd, hl, h2]
      omega
    | dropOp =>
      simp only [validFrom, Bool.and_eq_true, decide_eq_true_eq] at hv
      obtain ⟨h1, h2⟩ := ih (live - 1) hv.2
      have hlive : 1 ≤ live := hv.1
      have hc : countClones (Op.dropOp :: rest) = countClones rest :=
        countClones_cons _ _
      have hd : countDrops (Op.dropOp :: rest) = countDrops rest + 1 :=
        countDrops_cons _ _
      have hl : liveAfter live (Op.dropOp :: rest) = liveAfter (live - 1) rest := rfl
      rw [hc, hd, hl, h2]
      omega
    | recvOp =>
      simp only [validFrom] at hv
      obtain ⟨h1, h2⟩ := ih live hv
      have hc : countClones (Op.recvOp :: rest) = countClones rest :=
        countClones_cons _ _
      have hd : countDrops (Op.recvOp :: rest) = countDrops rest :=
        countDrops_cons _ _
      have hl : liveAfter live (Op.recvOp :: rest) = liveAfter live rest := rfl
      rw [hc, hd, hl, h2]
      omega

/-- Realizability of a concatenation splits at the junction, with the second
part starting from the handles left alive by the first. -/
lemma validFrom_append {T : Type} :
    ∀ (ops ops' : List (Op T)) (live : Nat),
    validFrom live (ops ++ ops') =
      (validFrom live ops && validFrom (liveAfter live ops) ops') := by
  intro ops
  induction ops with
  | nil => intro ops' live; simp [validFrom, liveAfter]
  | cons op rest ih =>
    intro ops' live
    cases op with
    | cloneOp => simp [validFrom, liveAfter, ih, Bool.and_assoc]
    | sendOp t => simp [validFrom, liveAfter, ih, Bool.and_assoc]
    | dropOp => simp [validFrom, liveAfter, ih, Bool.and_assoc]
    | recvOp => simp [validFrom, liveAfter, ih]

/-! ### Claims -/

/-- C1: sending `v1, …, vn` in order through one producer handle on a fresh
channel with no interleaving sends, `n` consecutive `recv` calls return
`some v1, …, some vn` in exactly that order (and leave the channel back in its
initial state); in particular sending `43` then receiving yields `Some(43)`. -/
theorem recv_ordering :
    (∀ (T : Type) (vs : List T),
      recvN vs.length (sendAll vs (channel T)) = some (vs.map some, channel T)) ∧
    recv (send 43 (channel Nat)) = .received 43 (channel Nat) := by
  constructor
  · intro T vs
    have hrw : sendAll vs (channel T) =
        ({ queue := vs, senders := 1, buffer := [] } : ChannelState T) := by
      rw [sendAll_queue]
      simp [channel]
    obtain ⟨s', hN, hc, hsend⟩ :=
      recvN_drain vs.length
        ({ queue := vs, senders := 1, buffer := [] } : ChannelState T) (by simp)
    have hs1 : s'.buffer = [] ∧ s'.queue = [] :=
      List.append_eq_nil.mp (by simpa using hc)
    have hs2 : s'.senders = 1 := by simpa using hsend
    have hs' : s' = channel T := by
      obtain ⟨q', n', b'⟩ := s'
      obtain ⟨hb, hq⟩ := hs1
      change b' = [] at hb
      change q' = [] at hq
      change n' = 1 at hs2
      subst hb; subst hq; subst hs2
      rfl
    rw [hrw, hN, hs']
    simp
  · rfl

/-- C2: `recv` returns `None` exactly when the prefetch buffer is empty, the
shared queue is empty and the sender count is zero; such a call leaves the
state unchanged, and calling `recv` again on it returns `None` again, so the
end-of-stream answer is terminal and idempotent. -/
theorem recv_none_iff_closed {T : Type} (s : ChannelState T) :
    (recv s = .closed s ↔ s.buffer = [] ∧ s.queue = [] ∧ s.senders = 0) ∧
    (∀ s', recv s = .closed s' → s' = s ∧ recv s' = .closed s') := by
  obtain ⟨q, n, b⟩ := s
  cases b with
  | cons t rest =>
    refine ⟨by simp [recv], fun s' h => ?_⟩
    simp [recv] at h
  | nil =>
    cases q with
    | cons u qrest =>
      refine ⟨by simp [recv], fun s' h => ?_⟩
      simp [recv] at h
    | nil =>
      by_cases hn : n = 0
      · subst hn
        refine ⟨by simp [recv], fun s' h => ?_⟩
        have h' : RecvResult.closed (⟨[], 0, []⟩ : ChannelState T) = .closed s' := h
        cases h'
        exact ⟨rfl, rfl⟩
      · refine ⟨by simp [recv, hn], fun s' h => ?_⟩
        simp [recv, hn] at h

/-- C2 witness: the empty closed state returns `None`. -/
theorem recv_none_iff_closed_witness :
    recv (⟨[], 0, []⟩ : ChannelState Nat) = .closed ⟨[], 0, []⟩ :=
  (recv_none_iff_closed ⟨[], 0, []⟩).1.mpr ⟨rfl, rfl, rfl⟩

/-- C3: after any realizable call sequence with `k` clones and `j` destructor
runs, `j ≤ k + 1`, the sender counter equals handles constructed (1 from the
factory plus `k`) minus handles destructed (`j`), and the channel is open
(`senders > 0`) iff `k + 1 - j > 0`. -/
theorem senders_invariant {T : Type} (ops : List (Op T))
    (hv : validFrom 1 ops = true) :
    countDrops ops ≤ 1 + countClones ops ∧
    (runOps ops (channel T)).senders = 1 + countClones ops - countDrops ops ∧
    ((runOps ops (channel T)).senders > 0 ↔
      1 + countClones ops - countDrops ops > 0) := by
  obtain ⟨h1, h2⟩ := liveAfter_counts ops 1 hv
  have hs : (runOps ops (channel T)).senders = liveAfter 1 ops :=
    runOps_senders ops 1 (channel T) hv rfl
  rw [hs, h2]
  exact ⟨h1, rfl, Iff.rfl⟩

/-- C3 witness: one clone then two destructor runs closes the channel. -/
theorem senders_invariant_witness :
    countDrops [Op.cloneOp, Op.sendOp 5, Op.dropOp, Op.dropOp] ≤
      1 + countClones [Op.cloneOp, Op.sendOp 5, Op.dropOp, Op.dropOp] ∧
    (runOps [Op.cloneOp, Op.sendOp 5, Op.dropOp, Op.dropOp]
        (channel Nat)).senders =
      1 + countClones [Op.cloneOp, Op.sendOp 5, Op.dropOp, Op.dropOp] -
        countDrops [Op.cloneOp, Op.sendOp 5, Op.dropOp, Op.dropOp] ∧
    ((runOps [Op.cloneOp, Op.sendOp 5, Op.dropOp, Op.dropOp]
        (channel Nat)).senders > 0 ↔
      1 + countClones [Op.cloneOp, Op.sendOp 5, Op.dropOp, Op.dropOp] -
        countDrops [Op.cloneOp, Op.sendOp 5, Op.dropOp, Op.dropOp] > 0) :=
  senders_invariant [Op.cloneOp, Op.sendOp 5, Op.dropOp, Op.dropOp] (by decide)

/-- C4: with an empty prefetch buffer and a non-empty shared queue, the code's
`recv` (pop the queue front, then swap buffer and queue) returns the queue's
front element, leaves the buffer holding exactly the remaining elements in
order and the shared queue empty — and the spec's algorithm (swap the whole
queue into the buffer, then pop the buffer front) produces the same result. -/
theorem recv_swap_refinement {T : Type} (s : ChannelState T) (t : T)
    (qrest : List T) (hb : s.buffer = []) (hq : s.queue = t :: qrest) :
    recv s = .received t { queue := [], senders := s.senders, buffer := qrest } ∧
    recvSpecModel s = recv s := by
  obtain ⟨q, n, b⟩ := s
  change b = [] at hb
  change q = t :: qrest at hq
  subst hb; subst hq
  exact ⟨rfl, rfl⟩

/-- C4 witness: draining the queue `[1, 2, 3]` into an empty buffer. -/
theorem recv_swap_refinement_witness :
    recv (⟨[1, 2, 3], 0, []⟩ : ChannelState Nat) =
      .received 1 { queue := [], senders := 0, buffer := [2, 3] } ∧
    recvSpecModel (⟨[1, 2, 3], 0, []⟩ : ChannelState Nat) =
      recv (⟨[1, 2, 3], 0, []⟩ : ChannelState Nat) :=
  recv_swap_refinement ⟨[1, 2, 3], 0, []⟩ 1 [2, 3] rfl rfl

/-- C5: `send` appends the value at the back of the shared queue and changes
nothing else — sender count and prefetch buffer are untouched — and, being a
total function into `ChannelState`, it has no error outcome. -/
theorem send_appends {T : Type} (t : T) (s : ChannelState T) :
    send t s =
      { queue := s.queue ++ [t], senders := s.senders, buffer := s.buffer } := rfl

/-- C7: whenever the prefetch buffer is non-empty, `recv` pops and returns its
front element and leaves the shared queue and the sender count unchanged,
whatever the queue holds and however many producers remain. -/
theorem recv_fast_path {T : Type} (s : ChannelState T) (t : T) (rest : List T)
    (hb : s.buffer = t :: rest) :
    recv s =
      .received t { queue := s.queue, senders := s.senders, buffer := rest } := by
  obtain ⟨q, n, b⟩ := s
  change b = t :: rest at hb
  subst hb
  rfl

/-- C7 witness: a buffered value is served without touching queue or count. -/
theorem recv_fast_path_witness :
    recv (⟨[9], 0, [5, 6]⟩ : ChannelState Nat) =
      .received 5 { queue := [9], senders := 0, buffer := [6] } :=
  recv_fast_path ⟨[9], 0, [5, 6]⟩ 5 [6] rfl

/-- C8: the factory is a total function (construction always succeeds) and the
one shared state both returned handles are bound to starts with sender count
exactly 1, an empty shared queue and an empty prefetch buffer. -/
theorem channel_init (T : Type) :
    (channel T).senders = 1 ∧ (channel T).queue = [] ∧ (channel T).buffer = [] :=
  ⟨rfl, rfl, rfl⟩

/-- C9: closing never discards values — whenever the buffer or the queue is
non-empty, even with the sender count already zero, `recv` returns `Some` of
the first remaining value and removes exactly that one value from the combined
content, so `None` can only come once every sent value was delivered once. -/
theorem recv_no_loss {T : Type} (s : ChannelState T)
    (h : s.buffer ≠ [] ∨ s.queue ≠ []) :
    ∃ t s', recv s = .received t s' ∧
      s.buffer ++ s.queue = t :: (s'.buffer ++ s'.queue) ∧
      s'.senders = s.senders := by
  match hc : s.buffer ++ s.queue with
  | [] =>
    rcases List.append_eq_nil.mp hc with ⟨hb, hq⟩
    cases h with
    | inl h => exact absurd hb h
    | inr h => exact absurd hq h
  | t :: rest =>
    obtain ⟨s', hr, hc', hsend⟩ := recv_received_content s t rest hc
    exact ⟨t, s', hr, by rw [hc'], hsend⟩

/-- C9 witness: a queued value is still delivered after the last drop. -/
theorem recv_no_loss_witness :
    ∃ t s', recv (⟨[7], 0, []⟩ : ChannelState Nat) = .received t s' ∧
      (⟨[7], 0, []⟩ : ChannelState Nat).buffer ++
          (⟨[7], 0, []⟩ : ChannelState Nat).queue =
        t :: (s'.buffer ++ s'.queue) ∧
      s'.senders = 0 :=
  recv_no_loss ⟨[7], 0, []⟩ (Or.inr (by decide))

/-- C10: in every reachable state in which a `Sender` destructor is about to
run, the sender count is at least 1, so the `usize` decrement cannot underflow
(adding 1 back recovers the old count); the counter always equals the number
of live handles, which clone's increment preserves. -/
theorem drop_no_underflow {T : Type} (ops : List (Op T))
    (hv : validFrom 1 (ops ++ [Op.dropOp]) = true) :
    1 ≤ (runOps ops (channel T)).senders ∧
    ((runOps ops (channel T)).senders - 1) + 1 = (runOps ops (channel T)).senders ∧
    (runOps ops (channel T)).senders = liveAfter 1 ops ∧
    (cloneSender (runOps ops (channel T))).senders = liveAfter 1 ops + 1 := by
  rw [validFrom_append] at hv
  simp only [Bool.and_eq_true] at hv
  obtain ⟨hv1, hv2⟩ := hv
  have hlive : 1 ≤ liveAfter 1 ops := by
    simp only [validFrom, Bool.and_eq_true, decide_eq_true_eq] at hv2
    exact hv2.1
  have hs : (runOps ops (channel T)).senders = liveAfter 1 ops :=
    runOps_senders ops 1 (channel T) hv1 rfl
  refine ⟨?_, ?_, hs, ?_⟩
  · rw [hs]; exact hlive
  · rw [hs]; omega
  · simp [cloneSender, hs]

/-- C10 witness: a clone leaves two senders, so the first drop is safe. -/
theorem drop_no_underflow_witness :
    1 ≤ (runOps [Op.cloneOp] (channel Nat)).senders ∧
    ((runOps [Op.cloneOp] (channel Nat)).senders - 1) + 1 =
      (runOps [Op.cloneOp] (channel Nat)).senders ∧
    (runOps [Op.cloneOp] (channel Nat)).senders =
      liveAfter 1 ([Op.cloneOp] : List (Op Nat)) ∧
    (cloneSender (runOps [Op.cloneOp] (channel Nat))).senders =
      liveAfter 1 ([Op.cloneOp] : List (Op Nat)) + 1 :=
  drop_no_underflow [Op.cloneOp] (by decide)

end Channel
